import Mathlib

set_option maxRecDepth 100000

/-!
Shallow embedding of the lexical analyzer in `Tokens.py` (classes `State`,
`AutoMachine`, `TokenProcessor`).  Python one-character strings (which may
also be the empty string `''`) are modelled by `Option Char` (`none` is
`''`).  The token processor's mutable object state is the structure `PSt`;
Python exceptions (`ParseError` unwinding) are modelled by the result type
`Res`, whose `fail` constructor carries the object state at the moment the
exception escapes.  Loops whose termination is not structural take a fuel
argument; `Res.gas` marks fuel exhaustion and is never identified with a
real outcome.
-/

/-- A Python string of length zero or one: `none` is `''`. -/
abbrev PChar := Option Char

/-- `State` from Tokens.py: the jump table of one automaton state.
Python's insertion-ordered dict is an association list. -/
structure MState where
  jmp_by : List (Char × Nat)
deriving Repr, DecidableEq

/-- `AutoMachine` from Tokens.py: states plus the accepting-state set. -/
structure AutoMachine where
  states : List (Nat × MState)
  end_states : List Nat
deriving Repr, DecidableEq

/-- Dict assignment `d[char] = tail`: overwrite in place or append. -/
def MState.setJmp (s : MState) (c : Char) (t : Nat) : MState :=
  if (s.jmp_by.lookup c).isSome then
    ⟨s.jmp_by.map (fun p => if p.1 = c then (c, t) else p)⟩
  else ⟨s.jmp_by ++ [(c, t)]⟩

/-- `dict.setdefault(k, State())` restricted to its ensure-present effect. -/
def ensureState (l : List (Nat × MState)) (k : Nat) : List (Nat × MState) :=
  if (l.lookup k).isSome then l else l ++ [(k, ⟨[]⟩)]

/-- `AutoMachine.make_pair`: add one transition, auto-creating both states. -/
def AutoMachine.make_pair (am : AutoMachine) (head_index : Nat) (char : Char)
    (tail_index : Nat) : AutoMachine :=
  let l := ensureState am.states head_index
  let l := l.map (fun p => if p.1 = head_index then (p.1, p.2.setJmp char tail_index) else p)
  ⟨ensureState l tail_index, am.end_states⟩

/-- `AutoMachine.set_end`: add the given ids to the accepting set. -/
def AutoMachine.set_end (am : AutoMachine) (index : List Nat) : AutoMachine :=
  ⟨am.states, index.foldl (fun s i => if s.contains i then s else s ++ [i]) am.end_states⟩

/-- Membership test `cur_state in self.end_states`. -/
def AutoMachine.isEnd (am : AutoMachine) (s : Nat) : Bool :=
  am.end_states.contains s

/-- One transition lookup `self.states[cur_state].jmp_by[char]`; a `KeyError`
(missing state or missing arc, including the empty-string character) is `none`. -/
def AutoMachine.step (am : AutoMachine) (s : Nat) (c : PChar) : Option Nat :=
  match c with
  | none => none
  | some ch => (am.states.lookup s).bind (fun st => st.jmp_by.lookup ch)

/-- The `for index, char in enumerate(src)` loop of `AutoMachine.validate`,
entered only for nonempty `src`: `cur` is the current state, `idx` the index
of the next element. -/
def AutoMachine.validateGo (am : AutoMachine) (cur idx : Nat) :
    List PChar → Nat × Bool × Bool
  | [] => (idx, am.isEnd cur, true)
  | c :: rest =>
    match am.step cur c with
    | some nxt => am.validateGo nxt (idx + 1) rest
    | none => (idx, am.isEnd cur, false)

/-- `AutoMachine.validate`.  On an empty list Python's `for ... else` leaves
`index = 0`, sets `is_end`, and returns `index + 1 = 1`. -/
def AutoMachine.validate (am : AutoMachine) (src : List PChar) : Nat × Bool × Bool :=
  match src with
  | [] => (1, am.isEnd 0, true)
  | _ :: _ => am.validateGo 0 0 src

/-- Python `str(i)` for a digit `i`. -/
def strDigit (i : Nat) : Char := Char.ofNat (48 + i)

/-- `TokenProcessor.init_int_auto_machine`. -/
def init_int_auto_machine : AutoMachine :=
  let valid_char := "abcdefABCDEF".toList
  let am : AutoMachine := ⟨[], []⟩
  let am := am.make_pair 0 '0' 2
  let am := (List.range' 1 9).foldl (fun a i => a.make_pair 0 (strDigit i) 1) am
  let am := (List.range 10).foldl
    (fun a i => (a.make_pair 1 (strDigit i) 1).make_pair 4 (strDigit i) 5) am
  let am := (List.range 8).foldl
    (fun a i => (a.make_pair 2 (strDigit i) 3).make_pair 3 (strDigit i) 3) am
  let am := (am.make_pair 2 'x' 4).make_pair 2 'X' 4
  let am := valid_char.foldl (fun a c => (a.make_pair 4 c 5).make_pair 5 c 5) am
  am.set_end [1, 2, 3, 5]

/-- `TokenProcessor.init_float_auto_machine`. -/
def init_float_auto_machine : AutoMachine :=
  let am : AutoMachine := ⟨[], []⟩
  let am := (am.make_pair 0 '.' 1).make_pair 3 '.' 2
  let am := (List.range 10).foldl
    (fun a i =>
      ((((((a.make_pair 1 (strDigit i) 2).make_pair 0 (strDigit i) 3).make_pair
        2 (strDigit i) 2).make_pair 3 (strDigit i) 3).make_pair
        4 (strDigit i) 6).make_pair 5 (strDigit i) 6).make_pair 6 (strDigit i) 6) am
  let am := (am.make_pair 2 'E' 4).make_pair 2 'e' 4
  let am := (am.make_pair 4 '+' 5).make_pair 4 '-' 5
  am.set_end [2, 6]

/-- `TokenProcessor.init_id_auto_machine`. -/
def init_id_auto_machine : AutoMachine :=
  let valid_char :=
    ("_abcdefghijklmnopqrstuvwxyz" ++ "ABCDEFGHIJKLMNOPQRSTUVWXYZ" ++ "0123456789").toList
  let am : AutoMachine := ⟨[], []⟩
  let am := (valid_char.take 53).foldl (fun a c => a.make_pair 0 c 1) am
  let am := valid_char.foldl (fun a c => a.make_pair 1 c 1) am
  am.set_end [1]

/-- `TokenProcessor.init_char_auto_machine`. -/
def init_char_auto_machine : AutoMachine :=
  let valid_char := "\\abfnrtv0123456789abcdefABCDEF".toList
  let am : AutoMachine := ⟨[], []⟩
  let am := (am.make_pair 0 '\'' 0).make_pair 0 '\\' 1
  let am := (valid_char.take 8).foldl (fun a c => a.make_pair 1 c 7) am
  let am := (List.range 8).foldl
    (fun a i => ((a.make_pair 1 (strDigit i) 2).make_pair 2 (strDigit i) 3).make_pair
      3 (strDigit i) 4) am
  let am := (am.make_pair 1 'x' 5).make_pair 1 'X' 5
  let am := (valid_char.drop 8).foldl (fun a c => (a.make_pair 5 c 6).make_pair 6 c 6) am
  am.set_end [2, 3, 4, 6, 7]

/-- The four automata a `TokenProcessor` builds in `__init__`. -/
def int_am : AutoMachine := init_int_auto_machine

/-- The float automaton instance. -/
def float_am : AutoMachine := init_float_auto_machine

/-- The identifier automaton instance. -/
def id_am : AutoMachine := init_id_auto_machine

/-- The character-escape automaton instance. -/
def char_am : AutoMachine := init_char_auto_machine

/-- Token categories: the table a token's index resolves against. -/
inductive Cat where
  | KT | iT | cT | ST | CT | PT
deriving Repr, DecidableEq

/-- A token `(category, table-index)`. -/
abbrev Token := Cat × Nat

/-- The kinds of diagnostics `is_an_error` is called with. -/
inductive ErrKind where
  | illegalToken | emptyChar | overlongChar | unmatchedQuote
deriving Repr, DecidableEq

/-- One diagnostic record: line number, kind, and the offending text
(as the list of one-character strings it was built from). -/
structure ErrRec where
  lineno : Nat
  kind : ErrKind
  tok : List PChar
deriving Repr, DecidableEq

/-- The mutable state of a `TokenProcessor`: the unread part of the file,
the lookahead `self.ch`, the pending buffer, the line counter, the token
stream, the four growable tables beside the fixed `KT`/`PT`, and the
diagnostics written to stderr. -/
structure PSt where
  input : List Char
  ch : PChar
  buffer : List PChar
  lineno : Nat
  tokens : List Token
  iT : List String
  cT : List String
  ST : List String
  CT : List String
  errors : List ErrRec
deriving Repr, DecidableEq

/-- `TokenProcessor.triple_size_char`. -/
def triple_size_char : List String := ["<<=", ">>=", "..."]

/-- `TokenProcessor.double_size_char`. -/
def double_size_char : List String :=
  ["->", "--", "-=", "++", "+=",
   "&=", "&&", "!=", "|=", "||",
   "<=", "<<", ">=", ">>", "*=",
   "/=", "%=", "^=", "##", "=="]

/-- `TokenProcessor.KT`: the fixed keyword table. -/
def KT : List String :=
  ["auto", "char", "const", "double", "enum", "float",
   "inline", "int", "long", "register", "restrict",
   "short", "signed", "static", "struct", "typedef",
   "union", "unsigned", "void", "volatile", "include",
   "break", "case", "continue", "default", "do", "else",
   "for", "goto", "if", "return", "sizeof", "switch", "while"]

/-- `TokenProcessor.PT`: the fixed punctuation table. -/
def PT : List String :=
  triple_size_char ++ double_size_char ++
  ["\x7b", "\x7d", "[", "]", "(", ")", ".", "&", "*",
   "+", "-", "~", "!", "/", "%", "<", ">", "^",
   "|", "?", ":", ";", "=", ",", "#"]

/-- Python `list.index` returning `none` instead of raising `ValueError`. -/
def pyIndex (l : List String) (s : String) : Option Nat :=
  match l with
  | [] => none
  | a :: r => if a = s then some 0 else (pyIndex r s).map (· + 1)

/-- `str.isalnum()` restricted to the ASCII inputs this lexer is fed. -/
def pyIsAlnum (c : Char) : Bool := c.isAlpha || c.isDigit

/-- `str.isspace()` on a one-character-or-empty string (`''` is not space). -/
def pyIsSpace : PChar → Bool
  | none => false
  | some c => c = ' ' || c = '\t' || c = '\n' || c = '\x0b' || c = '\x0c' || c = '\r'

/-- The guard of the word-accumulating loop in `scan_file`. -/
def isWordChar : PChar → Bool
  | none => false
  | some c => pyIsAlnum c || c = '_' || c = '.' || c = '+' || c = '-'

/-- The guard of the symbol-accumulating loop in `scan_file`
(`not self.ch.isalnum() and self.ch != '_'`; true on `''`). -/
def isSymbolChar : PChar → Bool
  | none => true
  | some c => !pyIsAlnum c && c != '_'

/-- Python `''.join` over one-character-or-empty strings. -/
def joinBuf (l : List PChar) : String := String.mk (l.filterMap id)

/-- Result of an operation on the processor: normal value, a `ParseError`
carrying the state at the moment the exception escapes, or fuel exhaustion. -/
inductive Res (α : Type) where
  | ok : α → Res α
  | fail : PSt → Res α
  | gas : Res α
deriving Repr, DecidableEq

/-- `TokenProcessor.is_an_error`: one line to stderr, recorded here. -/
def is_an_error (st : PSt) (tok : List PChar) (kind : ErrKind) : PSt :=
  { st with errors := st.errors ++ [⟨st.lineno, kind, tok⟩] }

/-- The table `self[table_name]` resolves to (read side). -/
def tableGet (st : PSt) : Cat → List String
  | Cat.iT => st.iT
  | Cat.cT => st.cT
  | Cat.ST => st.ST
  | Cat.CT => st.CT
  | Cat.KT => KT
  | Cat.PT => PT

/-- Write back a growable table.  `insert_token_into_symtable` is only ever
called with `iT`, `cT`, `ST` or `CT`, so the `KT`/`PT` cases are unreachable
(Python would fail appending to a tuple). -/
def tableSet (st : PSt) (c : Cat) (l : List String) : PSt :=
  match c with
  | Cat.iT => { st with iT := l }
  | Cat.cT => { st with cT := l }
  | Cat.ST => { st with ST := l }
  | Cat.CT => { st with CT := l }
  | Cat.KT => st
  | Cat.PT => st

/-- `TokenProcessor.insert_token_into_symtable`: dedup-insert the first
`tail` buffer cells into the named table, emit the token, drop the cells. -/
def insert_token_into_symtable (st : PSt) (tail : Nat) (cat : Cat) : PSt :=
  let full_str := joinBuf (st.buffer.take tail)
  let tbl := tableGet st cat
  match pyIndex tbl full_str with
  | some token_id =>
    { st with tokens := st.tokens ++ [(cat, token_id)], buffer := st.buffer.drop tail }
  | none =>
    let st := tableSet st cat (tbl ++ [full_str])
    { st with tokens := st.tokens ++ [(cat, tbl.length)], buffer := st.buffer.drop tail }

/-- `TokenProcessor.is_keywords`: exact match of the whole joined buffer. -/
def is_keywords (st : PSt) : Bool × PSt :=
  let full_str := joinBuf st.buffer
  match pyIndex KT full_str with
  | some token_id =>
    (true, { st with buffer := [], tokens := st.tokens ++ [(Cat.KT, token_id)] })
  | none => (false, st)

/-- `TokenProcessor.is_id`. -/
def is_id (st : PSt) : Bool × PSt :=
  let r := id_am.validate st.buffer
  if r.2.1 then (true, insert_token_into_symtable st r.1 Cat.iT) else (false, st)

/-- `TokenProcessor.is_number`: float automaton first, integer fallback. -/
def is_number (st : PSt) : Bool × PSt :=
  let r := float_am.validate st.buffer
  let r := if r.2.1 then r else int_am.validate st.buffer
  if r.2.1 then (true, insert_token_into_symtable st r.1 Cat.CT) else (false, st)

/-- `TokenProcessor.is_double_size_char`. -/
def is_double_size_char (char1 char2 : PChar) : Bool :=
  double_size_char.any (fun s =>
    match s.toList with
    | [c1, c2] => decide (char1 = some c1) && decide (char2 = some c2)
    | _ => false)

/-- `TokenProcessor.is_triple_size_char`. -/
def is_triple_size_char (char1 char2 char3 : PChar) : Bool :=
  triple_size_char.any (fun s =>
    match s.toList with
    | [c1, c2, c3] =>
      decide (char1 = some c1) && decide (char2 = some c2) && decide (char3 = some c3)
    | _ => false)

/-- `TokenProcessor.is_partition`: 3- then 2- then 1-character match. -/
def is_partition (st : PSt) : Bool × PSt :=
  let buffer := st.buffer
  let tail_index :=
    if 3 ≤ buffer.length &&
        is_triple_size_char (buffer.getD 0 none) (buffer.getD 1 none) (buffer.getD 2 none)
    then 3
    else if 2 ≤ buffer.length &&
        is_double_size_char (buffer.getD 0 none) (buffer.getD 1 none)
    then 2
    else 1
  let char := joinBuf (buffer.take tail_index)
  match pyIndex PT char with
  | some token_id =>
    (true,
      { st with
          tokens := st.tokens ++ [(Cat.PT, token_id)]
          buffer := buffer.drop tail_index })
  | none => (false, st)

/-- The state produced by the `except (EOFError, ParseError)` handler of
`read_char_until_quotation_mark`: restore the line counter to the value
recorded at entry, then report an unmatched-quote error against
`self.buffer[:index]` (so the error carries the entry line number). -/
def read_fail (startLine : Nat) (index : Nat) (st : PSt) : PSt :=
  is_an_error { st with lineno := startLine } (st.buffer.take index) ErrKind.unmatchedQuote

/-- The `while pre == '\\' or now != mark` loop of
`read_char_until_quotation_mark`.  One iteration either reads
`self.buffer[index]`, or (on `IndexError`) appends `self.ch` to the buffer
and refills it with `getchar()`; in every case the `finally` block raises
`ParseError` on a raw newline, and `getchar()` at end-of-input raises
`EOFError` after `index` was already incremented. -/
def read_loop (mark : PChar) (startLine : Nat) :
    Nat → PChar → PChar → Nat → PSt → Res (Nat × PSt)
  | 0, _, _, _, _ => Res.gas
  | fuel + 1, pre, now, index, st =>
    if pre = some '\\' ∨ now ≠ mark then
      match st.buffer.get? index with
      | some c =>
        if c = some '\n' then Res.fail (read_fail startLine index st)
        else read_loop mark startLine fuel now c (index + 1) st
      | none =>
        let now2 := st.ch
        let st2 := { st with buffer := st.buffer ++ [st.ch] }
        match st2.input with
        | [] =>
          if now2 = some '\n' then Res.fail (read_fail startLine index st2)
          else Res.fail (read_fail startLine (index + 1) st2)
        | c :: rest =>
          let st3 := { st2 with ch := some c, input := rest }
          if now2 = some '\n' then Res.fail (read_fail startLine index st3)
          else read_loop mark startLine fuel now now2 (index + 1) st3
    else Res.ok (index, st)

/-- `TokenProcessor.read_char_until_quotation_mark`.  The fuel bounds the
loop's iteration count (each iteration consumes a buffer cell or an input
character); on success the result is the index one past the closing mark. -/
def read_char_until_quotation_mark (st : PSt) (mark : PChar) : Res (Nat × PSt) :=
  read_loop mark st.lineno (st.buffer.length + st.input.length + 2) none none 1 st

/-- `TokenProcessor.is_char`.  An empty literal (closing quote at index 1)
reports and raises `ParseError`; an interior longer than one raw character
is re-validated with the escape automaton, reported as overlong when the
cell after the valid part is not a quote, and patched with a synthesized
closing quote.  Note the double truncation: `insert_token_into_symtable`
already drops `valid_index` cells, then `self.buffer[:quotation_index] = ''`
drops up to `quotation_index` more. -/
def is_char (st : PSt) : Res (Bool × PSt) :=
  if st.buffer.head? ≠ some (some '\'') then Res.ok (false, st)
  else
    match read_char_until_quotation_mark st (some '\'') with
    | Res.gas => Res.gas
    | Res.fail s => Res.fail s
    | Res.ok (quotation_index, st1) =>
      if quotation_index = 2 then
        Res.fail (is_an_error st1 [] ErrKind.emptyChar)
      else
        let vs :=
          if 3 < quotation_index then
            let r := char_am.validate st1.buffer
            let vi := if r.2.1 then r.1 else 2
            let st2 :=
              if st1.buffer.getD vi none ≠ some '\'' then
                is_an_error st1 (st1.buffer.take quotation_index) ErrKind.overlongChar
              else st1
            (vi + 1, { st2 with buffer := st2.buffer.set vi (some '\'') })
          else (3, st1)
        let st3 := insert_token_into_symtable vs.2 vs.1 Cat.cT
        Res.ok (true, { st3 with buffer := st3.buffer.drop quotation_index })

/-- `TokenProcessor.is_string`. -/
def is_string (st : PSt) : Res (Bool × PSt) :=
  if st.buffer.head? ≠ some (some '"') then Res.ok (false, st)
  else
    match read_char_until_quotation_mark st (some '"') with
    | Res.gas => Res.gas
    | Res.fail s => Res.fail s
    | Res.ok (index, st1) => Res.ok (true, insert_token_into_symtable st1 index Cat.ST)

/-- The `while self.buffer` loop of `TokenProcessor.match`: drop whitespace
and empty placeholders (counting newlines), then try the recognizers in
fixed priority order; when none hits, report an illegal token and drop one
character.  `ParseError` from the literal recognizers propagates. -/
def match_buffer : Nat → PSt → Res PSt
  | 0, _ => Res.gas
  | fuel + 1, st =>
    match st.buffer with
    | [] => Res.ok st
    | b :: rest =>
      if pyIsSpace b || b.isNone then
        match_buffer fuel
          { st with buffer := rest
                    lineno := if b = some '\n' then st.lineno + 1 else st.lineno }
      else
        let kw := is_keywords st
        if kw.1 then match_buffer fuel kw.2
        else
          let idr := is_id st
          if idr.1 then match_buffer fuel idr.2
          else
            let num := is_number st
            if num.1 then match_buffer fuel num.2
            else
              match is_char st with
              | Res.gas => Res.gas
              | Res.fail s => Res.fail s
              | Res.ok (true, st1) => match_buffer fuel st1
              | Res.ok (false, _) =>
                match is_string st with
                | Res.gas => Res.gas
                | Res.fail s => Res.fail s
                | Res.ok (true, st1) => match_buffer fuel st1
                | Res.ok (false, _) =>
                  let pr := is_partition st
                  if pr.1 then match_buffer fuel pr.2
                  else match_buffer fuel
                    (is_an_error { st with buffer := rest } [b] ErrKind.illegalToken)

/-- Fuel that bounds `match_buffer`'s iterations: every iteration removes at
least one character from buffer-plus-input. -/
def match_fuel (st : PSt) : Nat := st.buffer.length + st.input.length + 1

/-- The word-accumulating loop of `scan_file` (phase 1); the returned flag
records whether `getchar()` raised `EOFError` (in which case `self.ch`
keeps its stale value). -/
def phase1go : List Char → PChar → List PChar →
    PChar × List PChar × List Char × Bool
  | input, ch, buffer =>
    if isWordChar ch then
      match input with
      | [] => (ch, buffer ++ [ch], [], true)
      | c :: rest => phase1go rest (some c) (buffer ++ [ch])
    else (ch, buffer, input, false)

/-- The symbol-accumulating loop of `scan_file` (phase 3). -/
def phase2go : List Char → PChar → List PChar →
    PChar × List PChar × List Char × Bool
  | input, ch, buffer =>
    if isSymbolChar ch then
      match input with
      | [] => (ch, buffer ++ [ch], [], true)
      | c :: rest => phase2go rest (some c) (buffer ++ [ch])
    else (ch, buffer, input, false)

/-- Run one of the phase loops on the processor state. -/
def runPhase (go : List Char → PChar → List PChar → PChar × List PChar × List Char × Bool)
    (st : PSt) : PSt × Bool :=
  let r := go st.input st.ch st.buffer
  ({ st with ch := r.1, buffer := r.2.1, input := r.2.2.1 }, r.2.2.2)

/-- `TokenProcessor.scan_file`.  Each iteration clears the buffer, runs the
word phase, and then either dispatches the word run, or runs the symbol
phase; `EOFError` breaks the loop and `ParseError` escapes, but in *every*
exit path the `finally` clause runs `self.match()` once more first. -/
def scan_file : Nat → PSt → Res PSt
  | 0, _ => Res.gas
  | fuel + 1, st =>
    let st := { st with buffer := [] }
    let p1 := runPhase phase1go st
    if p1.2 then
      match match_buffer (match_fuel p1.1) p1.1 with
      | Res.gas => Res.gas
      | Res.fail s => Res.fail s
      | Res.ok s => Res.ok s
    else if p1.1.buffer ≠ [] then
      match match_buffer (match_fuel p1.1) p1.1 with
      | Res.gas => Res.gas
      | Res.fail s =>
        match match_buffer (match_fuel s) s with
        | Res.gas => Res.gas
        | Res.fail s2 => Res.fail s2
        | Res.ok s2 => Res.fail s2
      | Res.ok s =>
        match match_buffer (match_fuel s) s with
        | Res.gas => Res.gas
        | Res.fail s2 => Res.fail s2
        | Res.ok s2 => scan_file fuel s2
    else
      let p2 := runPhase phase2go p1.1
      match match_buffer (match_fuel p2.1) p2.1 with
      | Res.gas => Res.gas
      | Res.fail s2 => Res.fail s2
      | Res.ok s2 => if p2.2 then Res.ok s2 else scan_file fuel s2

/-- The initial processor state on a file whose text is `input`. -/
def initSt (input : List Char) : PSt :=
  { input := input, ch := none, buffer := [], lineno := 1, tokens := [],
    iT := [], cT := [], ST := [], CT := [], errors := [] }

/-- Run the whole scan on a file's text, with enough fuel for its length
(each outer iteration that is not the last consumes input). -/
def tokenize (input : List Char) : Res PSt := scan_file (input.length + 2) (initSt input)

/-- `tokenize` on a Lean string literal. -/
def tokenizeStr (s : String) : Res PSt := tokenize s.toList

/-- The final state of a successful scan. -/
def okSt : Res PSt → Option PSt
  | Res.ok s => some s
  | _ => none

/-- The state carried by an escaping `ParseError`. -/
def failSt : Res PSt → Option PSt
  | Res.fail s => some s
  | _ => none

/-- Run the automaton from a state over a list, `none` when some element has
no transition.  Spec-side description of the transition walk, used to state
what `validate` computes. -/
def runFrom (am : AutoMachine) : Nat → List PChar → Option Nat
  | s, [] => some s
  | s, c :: rest =>
    match am.step s c with
    | some t => runFrom am t rest
    | none => none

/-- The ten decimal digit characters. -/
def digitChars : List Char := ['0', '1', '2', '3', '4', '5', '6', '7', '8', '9']

/-- The nonzero decimal digits. -/
def nonzeroDigitChars : List Char := ['1', '2', '3', '4', '5', '6', '7', '8', '9']

/-- The octal digits. -/
def octalDigitChars : List Char := ['0', '1', '2', '3', '4', '5', '6', '7']

/-- The twelve hexadecimal letter characters. -/
def hexLetterChars : List Char := "abcdefABCDEF".toList

/-- The characters an identifier may contain. -/
def idAllChars : List Char :=
  ("_abcdefghijklmnopqrstuvwxyz" ++ "ABCDEFGHIJKLMNOPQRSTUVWXYZ" ++ "0123456789").toList

/-- The characters an identifier may start with. -/
def idStartChars : List Char := idAllChars.take 53

/-- `w` is a decimal integer literal with no leading zero. -/
def isDecimalNoLead (w : List Char) : Prop :=
  match w with
  | [] => False
  | c :: rest => c ∈ nonzeroDigitChars ∧ ∀ d ∈ rest, d ∈ digitChars

/-- `w` matches the identifier pattern of the spec. -/
def isIdentText (w : List Char) : Prop :=
  match w with
  | [] => False
  | c :: cs => c ∈ idStartChars ∧ ∀ d ∈ cs, d ∈ idAllChars

/-- Token stream of a successful scan. -/
def okTokens (r : Res PSt) : Option (List Token) := (okSt r).map PSt.tokens

/-- Identifier table of a successful scan. -/
def okIT (r : Res PSt) : Option (List String) := (okSt r).map PSt.iT

/-- Char-literal table of a successful scan. -/
def okcT (r : Res PSt) : Option (List String) := (okSt r).map PSt.cT

/-- String table of a successful scan. -/
def okST (r : Res PSt) : Option (List String) := (okSt r).map PSt.ST

/-- Numeric-constant table of a successful scan. -/
def okCT (r : Res PSt) : Option (List String) := (okSt r).map PSt.CT

/-- Project a char-recognizer result to its hit flag, remaining buffer and
token stream. -/
def charHit : Res (Bool × PSt) → Option (Bool × List PChar × List Token)
  | Res.ok (b, s) => some (b, s.buffer, s.tokens)
  | _ => none

/-- A token's index is in range for the table its category names. -/
def tokenOK (st : PSt) (t : Token) : Prop := t.2 < (tableGet st t.1).length

/-- Every emitted token's index is in range for its table. -/
def ValidToks (st : PSt) : Prop := ∀ t ∈ st.tokens, tokenOK st t

/-- The growable tables and the token stream of `st'` extend those of `st`
(append-only evolution). -/
def growTables (st st' : PSt) : Prop :=
  (∃ l, st'.iT = st.iT ++ l) ∧ (∃ l, st'.cT = st.cT ++ l) ∧
  (∃ l, st'.ST = st.ST ++ l) ∧ (∃ l, st'.CT = st.CT ++ l) ∧
  (∃ l, st'.tokens = st.tokens ++ l)

/-- An operation step is frame-correct for C10: tables and tokens extend,
and token validity is preserved. -/
def stepOK (st st' : PSt) : Prop := growTables st st' ∧ (ValidToks st → ValidToks st')

/-- A state about to scan a char literal whose closing quote sits four
lines below its opening quote's line counter value. -/
def W5 : PSt :=
  { input := ['b', '\n'], ch := some 'a', buffer := [some '\''], lineno := 5,
    tokens := [], iT := [], cT := [], ST := [], CT := [], errors := [] }

/-- The state `read_char_until_quotation_mark` leaves behind on `W5`. -/
def W5out : PSt :=
  { input := [], ch := some '\n',
    buffer := [some '\'', some 'a', some 'b', some '\n'], lineno := 5,
    tokens := [], iT := [], cT := [], ST := [], CT := [],
    errors := [⟨5, ErrKind.unmatchedQuote, [some '\'', some 'a', some 'b']⟩] }

/-- A buffer state holding a complete char literal followed by `=` and a
space: the text after the closing quote is still pending classification. -/
def W4 : PSt :=
  { input := [], ch := some 'y',
    buffer := [some '\'', some '+', some '\'', some '=', some ' '], lineno := 1,
    tokens := [], iT := [], cT := [], ST := [], CT := [], errors := [] }

/-- A state whose buffer holds a float-shaped run. -/
def W2f : PSt :=
  { input := [], ch := none, buffer := [some '.', some '5'], lineno := 1,
    tokens := [], iT := [], cT := [], ST := [], CT := [], errors := [] }

/-- A state whose buffer holds an integer-shaped run the float automaton
rejects. -/
def W2i : PSt :=
  { input := [], ch := none, buffer := [some '0', some '8'], lineno := 1,
    tokens := [], iT := [], cT := [], ST := [], CT := [], errors := [] }

/-- A state whose buffer holds exactly a keyword. -/
def W7 : PSt :=
  { input := [], ch := none, buffer := [some 'i', some 'n', some 't'], lineno := 1,
    tokens := [], iT := [], cT := [], ST := [], CT := [], errors := [] }

/-- A state whose buffer starts with a three-character operator. -/
def W8a : PSt :=
  { input := [], ch := none, buffer := [some '<', some '<', some '=', some ' '], lineno := 1,
    tokens := [], iT := [], cT := [], ST := [], CT := [], errors := [] }

/-- A state whose buffer starts with a two-character operator. -/
def W8b : PSt :=
  { input := [], ch := none, buffer := [some '<', some '<'], lineno := 1,
    tokens := [], iT := [], cT := [], ST := [], CT := [], errors := [] }

/-- A state whose buffer repeats an identifier already in the table. -/
def W6 : PSt :=
  { input := [], ch := none, buffer := [some 'a', some 'b'], lineno := 1,
    tokens := [], iT := ["ab"], cT := [], ST := [], CT := [], errors := [] }

/-- The token stream and the four growable tables of two states agree
(operations that only touch input, lookahead, buffer, line counter or
diagnostics). -/
def framesEq (st st' : PSt) : Prop :=
  st'.tokens = st.tokens ∧ st'.iT = st.iT ∧ st'.cT = st.cT ∧
  st'.ST = st.ST ∧ st'.CT = st.CT

/-- Every real outcome (normal or escaping `ParseError`) of `r` is a
frame-correct step from `st`. -/
def resOK (st : PSt) (r : Res PSt) : Prop :=
  ∀ s', r = Res.ok s' ∨ r = Res.fail s' → stepOK st s'

/-- The final state of scanning the file `ab`. -/
def W10out : PSt :=
  { input := [], ch := some 'b', buffer := [], lineno := 1,
    tokens := [(Cat.iT, 0)], iT := ["ab"], cT := [], ST := [], CT := [], errors := [] }

/-- If the transition walk from `s` consumes all of `src`, the validate loop
reports full consumption and the acceptance of the final state. -/
theorem validateGo_run (am : AutoMachine) :
    ∀ (src : List PChar) (s idx t : Nat), runFrom am s src = some t →
      am.validateGo s idx src = (idx + src.length, am.isEnd t, true) := by
  intro src
  induction src with
  | nil =>
    intro s idx t h
    simp only [runFrom, Option.some.injEq] at h
    subst h
    simp [AutoMachine.validateGo]
  | cons c rest ih =>
    intro s idx t h
    simp only [runFrom] at h
    cases hs : am.step s c with
    | none => rw [hs] at h; simp at h
    | some u =>
      rw [hs] at h
      simp only [AutoMachine.validateGo, hs]
      rw [ih u (idx + 1) t h]
      rw [show idx + 1 + rest.length = idx + (c :: rest).length from by simp; omega]

/-- If the walk reaches state `s'` after `i` elements and the next element
has no transition, the validate loop stops exactly there. -/
theorem validateGo_stop (am : AutoMachine) :
    ∀ (i : Nat) (src : List PChar) (s idx s' : Nat) (c : PChar),
      runFrom am s (src.take i) = some s' → src.get? i = some c →
      am.step s' c = none →
      am.validateGo s idx src = (idx + i, am.isEnd s', false) := by
  intro i
  induction i with
  | zero =>
    intro src s idx s' c h1 h2 h3
    simp only [List.take_zero, runFrom, Option.some.injEq] at h1
    subst h1
    cases src with
    | nil => simp at h2
    | cons c0 rest =>
      simp only [List.get?_cons_zero, Option.some.injEq] at h2
      subst h2
      simp [AutoMachine.validateGo, h3]
  | succ i ih =>
    intro src s idx s' c h1 h2 h3
    cases src with
    | nil => simp at h2
    | cons c0 rest =>
      simp only [List.take_succ_cons, runFrom] at h1
      cases hs : am.step s c0 with
      | none => rw [hs] at h1; simp at h1
      | some u =>
        rw [hs] at h1
        simp only [List.get?_cons_succ] at h2
        simp only [AutoMachine.validateGo, hs]
        rw [ih rest u (idx + 1) s' c h1 h2 h3]
        rw [show idx + 1 + i = idx + (i + 1) from by omega]

/-- C1 (counterexample): on the empty list `validate` returns stop index 1,
not 0 as claimed — Python's `for ... else` branch returns `index + 1` with
`index` still 0. -/
theorem C1_counterexample :
    id_am.validate ([] : List PChar) = (1, false, true) ∧
    (id_am.validate ([] : List PChar)).1 ≠ 0 := by
  constructor
  · decide
  · decide

/-- C1 (amended): `validate` starts at state 0 and follows one transition
per element in order; on the first element with no transition it returns
that element's index, whether the state reached before it is accepting, and
`consumedAll = false`; if every element of a *nonempty* list has a
transition it returns the list's length, the acceptance of the final state,
and `true`; for the empty list it returns stop index 1 (not 0), the
acceptance of state 0, and `true`. -/
theorem C1_validate_characterization (am : AutoMachine) (src : List PChar) :
    (src = [] → am.validate src = (1, am.isEnd 0, true)) ∧
    (∀ s, src ≠ [] → runFrom am 0 src = some s →
      am.validate src = (src.length, am.isEnd s, true)) ∧
    (∀ i s c, runFrom am 0 (src.take i) = some s → src.get? i = some c →
      am.step s c = none → am.validate src = (i, am.isEnd s, false)) := by
  refine ⟨?_, ?_, ?_⟩
  · intro h; subst h; rfl
  · intro s hne h
    cases src with
    | nil => exact absurd rfl hne
    | cons c rest =>
      show am.validateGo 0 0 (c :: rest) = _
      rw [validateGo_run am (c :: rest) 0 0 s h]
      simp
  · intro i s c h1 h2 h3
    cases src with
    | nil => simp at h2
    | cons c0 rest =>
      show am.validateGo 0 0 (c0 :: rest) = _
      rw [validateGo_stop am i (c0 :: rest) 0 0 s c h1 h2 h3]
      simp

/-- C1 (witness): the three branches of the characterization at concrete
inputs — the empty list on the identifier automaton, and full and truncated
runs of the integer automaton. -/
theorem C1_witness :
    id_am.validate ([] : List PChar) = (1, id_am.isEnd 0, true) ∧
    int_am.validate [some '1', some '7'] = (2, int_am.isEnd 1, true) ∧
    int_am.validate [some '1', some 'z'] = (1, int_am.isEnd 1, false) := by
  refine ⟨(C1_validate_characterization id_am []).1 rfl, ?_, ?_⟩
  · exact (C1_validate_characterization int_am [some '1', some '7']).2.1 1
      (by simp) (by decide)
  · exact (C1_validate_characterization int_am [some '1', some 'z']).2.2 1 1
      (some 'z') (by decide) (by decide) (by decide)

/-- State 0 of the integer automaton sends each nonzero digit to state 1. -/
theorem int_step_nonzero : ∀ c ∈ nonzeroDigitChars, int_am.step 0 (some c) = some 1 := by
  decide

/-- State 1 of the integer automaton self-loops on every decimal digit. -/
theorem int_step_digit1 : ∀ c ∈ digitChars, int_am.step 1 (some c) = some 1 := by
  decide

/-- The validate loop from state 1 consumes any string of decimal digits. -/
theorem int_validateGo_digits :
    ∀ (rest : List Char) (idx : Nat), (∀ d ∈ rest, d ∈ digitChars) →
      int_am.validateGo 1 idx (rest.map some) = (idx + rest.length, true, true) := by
  intro rest
  induction rest with
  | nil =>
    intro idx _
    simpa [AutoMachine.validateGo] using by decide
  | cons d rest ih =>
    intro idx h
    have hd := int_step_digit1 d (h d (by simp))
    simp only [List.map_cons, AutoMachine.validateGo, hd]
    rw [ih (idx + 1) (fun x hx => h x (by simp [hx]))]
    rw [show idx + 1 + rest.length = idx + (rest.length + 1) from by omega]
    simp

/-- The integer automaton consumes and accepts every decimal literal with
no leading zero. -/
theorem int_validate_decimal (w : List Char) (h : isDecimalNoLead w) :
    int_am.validate (w.map some) = (w.length, true, true) := by
  cases w with
  | nil => exact absurd h (by simp [isDecimalNoLead])
  | cons c rest =>
    obtain ⟨hc, hrest⟩ := h
    have h0 := int_step_nonzero c hc
    show int_am.validateGo 0 0 _ = _
    simp only [List.map_cons, AutoMachine.validateGo, h0]
    rw [int_validateGo_digits rest 1 hrest]
    simp [Nat.add_comm]

/-- C3 (counterexample): state 5 of the integer automaton has no transition
on the decimal digit `0` (the code only adds `a-f`/`A-F` loops on state 5),
so `0x12` is consumed only up to `0x1` — contradicting the claimed table in
which states 4 and 5 both carry transitions on every hex digit. -/
theorem C3_counterexample :
    int_am.step 5 (some '0') = none ∧
    int_am.validate [some '0', some 'x', some '1', some '2'] = (3, true, false) := by
  constructor
  · decide
  · decide

/-- C3 (amended): the integer automaton's transitions are as claimed except
on state 5, which self-loops only on the hex letters `a-f`/`A-F` and has no
transition on the decimal digits (so a hex literal stops at the first digit
after a digit in the body); accepting set is `{1, 2, 3, 5}`, every decimal
literal with no leading zero is consumed and accepted whole, `0`, `0x1F`
and `017` are single numeric tokens, and `08` yields the token `0` and then
the separate token `8`. -/
theorem C3_int_automaton_amended :
    (int_am.step 0 (some '0') = some 2) ∧
    (∀ c ∈ nonzeroDigitChars, int_am.step 0 (some c) = some 1) ∧
    (∀ c ∈ digitChars, int_am.step 1 (some c) = some 1) ∧
    (∀ c ∈ octalDigitChars, int_am.step 2 (some c) = some 3 ∧
      int_am.step 3 (some c) = some 3) ∧
    (int_am.step 2 (some 'x') = some 4 ∧ int_am.step 2 (some 'X') = some 4) ∧
    (∀ c ∈ digitChars ++ hexLetterChars, int_am.step 4 (some c) = some 5) ∧
    (∀ c ∈ hexLetterChars, int_am.step 5 (some c) = some 5) ∧
    (∀ c ∈ digitChars, int_am.step 5 (some c) = none) ∧
    (int_am.end_states = [1, 2, 3, 5]) ∧
    (int_am.states.map (fun p => (p.1, p.2.jmp_by.length)) =
      [(0, 10), (2, 10), (1, 10), (4, 22), (5, 12), (3, 8)]) ∧
    (∀ w : List Char, isDecimalNoLead w →
      int_am.validate (w.map some) = (w.length, true, true)) ∧
    (okTokens (tokenizeStr "0") = some [(Cat.CT, 0)] ∧
      okCT (tokenizeStr "0") = some ["0"]) ∧
    (okTokens (tokenizeStr "0x1F") = some [(Cat.CT, 0)] ∧
      okCT (tokenizeStr "0x1F") = some ["0x1F"]) ∧
    (okTokens (tokenizeStr "017") = some [(Cat.CT, 0)] ∧
      okCT (tokenizeStr "017") = some ["017"]) ∧
    (okTokens (tokenizeStr "08") = some [(Cat.CT, 0), (Cat.CT, 1)] ∧
      okCT (tokenizeStr "08") = some ["0", "8"]) := by
  refine ⟨by decide, int_step_nonzero, int_step_digit1, by decide, by decide,
    by decide, by decide, by decide, by decide, by decide,
    int_validate_decimal, by decide, by decide, by decide, by decide⟩

/-- C3 (witness): the bounded-quantifier conjuncts of the amended table at
concrete characters, and the decimal law at a concrete literal. -/
theorem C3_witness :
    int_am.step 0 (some '5') = some 1 ∧
    int_am.step 1 (some '0') = some 1 ∧
    int_am.step 2 (some '7') = some 3 ∧
    int_am.step 4 (some 'F') = some 5 ∧
    int_am.step 5 (some 'f') = some 5 ∧
    int_am.step 5 (some '9') = none ∧
    int_am.validate [some '4', some '2'] = (2, true, true) := by
  have h := C3_int_automaton_amended
  exact ⟨h.2.1 '5' (by decide), h.2.2.1 '0' (by decide),
    (h.2.2.2.1 '7' (by decide)).1, h.2.2.2.2.2.1 'F' (by decide),
    h.2.2.2.2.2.2.1 'f' (by decide), h.2.2.2.2.2.2.2.1 '9' (by decide),
    h.2.2.2.2.2.2.2.2.2.2.1 ['4', '2'] (by constructor <;> decide)⟩

/-- C2 (counterexample): scanning `.5` does not produce a single CT token
(the dot is consumed in the symbol phase and becomes punctuation), `1e10`
does not produce a single CT token (the float automaton has exponent arcs
only after a decimal point), and `2.` is not split into an integer and a
dot (the trailing-dot float is accepted whole). -/
theorem C2_counterexample :
    ¬ ((okTokens (tokenizeStr ".5")).map (List.map Prod.fst) = some [Cat.CT] ∧
       (okTokens (tokenizeStr "1e10")).map (List.map Prod.fst) = some [Cat.CT] ∧
       (okTokens (tokenizeStr "2.")).map (List.map Prod.fst) = some [Cat.CT, Cat.PT]) := by
  decide

/-- C2 (amended): number recognition runs the float automaton first and
falls back to the integer automaton.  `3.14` and `1.5e-3` each produce one
CT token covering the whole literal; `.5` produces a punctuation `.` token
followed by the numeric token `5`; `2.` produces the single float token
`2.`; `1e10` produces the numeric token `1` followed by the identifier
token `e10`; and `1e` does not produce a single numeric token. -/
theorem C2_number_recognition_amended :
    (∀ st : PSt, (float_am.validate st.buffer).2.1 = true →
      is_number st =
        (true, insert_token_into_symtable st (float_am.validate st.buffer).1 Cat.CT)) ∧
    (∀ st : PSt, (float_am.validate st.buffer).2.1 = false →
      (int_am.validate st.buffer).2.1 = true →
      is_number st =
        (true, insert_token_into_symtable st (int_am.validate st.buffer).1 Cat.CT)) ∧
    (∀ st : PSt, (float_am.validate st.buffer).2.1 = false →
      (int_am.validate st.buffer).2.1 = false → is_number st = (false, st)) ∧
    (okTokens (tokenizeStr "3.14") = some [(Cat.CT, 0)] ∧
      okCT (tokenizeStr "3.14") = some ["3.14"]) ∧
    (okTokens (tokenizeStr "1.5e-3") = some [(Cat.CT, 0)] ∧
      okCT (tokenizeStr "1.5e-3") = some ["1.5e-3"]) ∧
    (okTokens (tokenizeStr ".5") = some [(Cat.PT, 29), (Cat.CT, 0)] ∧
      okCT (tokenizeStr ".5") = some ["5"] ∧ PT.get? 29 = some ".") ∧
    (okTokens (tokenizeStr "2.") = some [(Cat.CT, 0)] ∧
      okCT (tokenizeStr "2.") = some ["2."]) ∧
    (okTokens (tokenizeStr "1e10") = some [(Cat.CT, 0), (Cat.iT, 0)] ∧
      okCT (tokenizeStr "1e10") = some ["1"] ∧
      okIT (tokenizeStr "1e10") = some ["e10"]) ∧
    okTokens (tokenizeStr "1e") = some [(Cat.CT, 0), (Cat.iT, 0)] := by
  refine ⟨?_, ?_, ?_, by decide, by decide, by decide, by decide, by decide, by decide⟩
  · intro st h
    simp only [is_number, h, if_true]
  · intro st h1 h2
    simp [is_number, h1, h2]
  · intro st h1 h2
    simp [is_number, h1, h2]

/-- C2 (witness): the float-first rule on a buffer holding `.5` and the
integer fallback on a buffer holding `08`. -/
theorem C2_witness :
    is_number W2f = (true, insert_token_into_symtable W2f 2 Cat.CT) ∧
    is_number W2i = (true, insert_token_into_symtable W2i 1 Cat.CT) := by
  have h := C2_number_recognition_amended
  exact ⟨h.1 W2f (by decide), h.2.1 W2i (by decide) (by decide)⟩

/-- C4 (code bug evidence): on a buffer holding `'+'` followed by `=` and a
space, `is_char` hits and emits one token, but the buffer afterwards is
empty — the `=` and the space after the closing quote were deleted by the
second truncation `self.buffer[:quotation_index] = ''` on top of the one
`insert_token_into_symtable` already performed.  Consequently the full scan
of `'+'= y` emits no punctuation token for the `=` at all. -/
theorem C4_char_literal_truncation_bug :
    charHit (is_char W4) = some (true, [], [(Cat.cT, 0)]) ∧
    okTokens (tokenizeStr "'+'= y") = some [(Cat.cT, 0), (Cat.iT, 0)] ∧
    okcT (tokenizeStr "'+'= y") = some ["'+'"] ∧
    (okTokens (tokenizeStr "'+'= y")).map
      (fun l => l.filter (fun t => t.1 == Cat.PT)) = some [] := by
  refine ⟨by decide, by decide, by decide, by decide⟩

/-- C9: scanning the file `''` reports the empty-literal error on line 1,
emits no token, and the `ParseError` escapes the scan unrecovered. -/
theorem C9_empty_char_literal :
    (failSt (tokenizeStr "''")).map (fun s => (s.tokens, s.errors)) =
      some ([], [⟨1, ErrKind.emptyChar, []⟩]) ∧
    okSt (tokenizeStr "''") = none := by
  constructor
  · decide
  · decide

/-- Whenever the literal-reading loop fails (raw newline or end-of-input),
the escaping state keeps the entry line number, leaves the token stream
unchanged, and has appended exactly one unmatched-quote error carrying the
entry line number and a prefix of the consumed buffer. -/
theorem read_loop_fail (mark : PChar) (startLine : Nat) :
    ∀ (fuel : Nat) (pre now : PChar) (index : Nat) (st st' : PSt),
      read_loop mark startLine fuel pre now index st = Res.fail st' →
      st'.lineno = startLine ∧ st'.tokens = st.tokens ∧
      ∃ n, st'.errors = st.errors ++ [⟨startLine, ErrKind.unmatchedQuote, st'.buffer.take n⟩] := by
  intro fuel
  induction fuel with
  | zero => intro pre now index st st' h; simp [read_loop] at h
  | succ fuel ih =>
    intro pre now index st st' h
    rw [read_loop] at h
    dsimp only at h
    split at h
    · split at h
      · split at h
        · simp only [Res.fail.injEq] at h
          subst h
          exact ⟨rfl, rfl, index, rfl⟩
        · exact ih _ _ _ _ _ h
      · split at h
        · split at h
          · simp only [Res.fail.injEq] at h
            subst h
            exact ⟨rfl, rfl, index, rfl⟩
          · simp only [Res.fail.injEq] at h
            subst h
            exact ⟨rfl, rfl, index + 1, rfl⟩
        · split at h
          · simp only [Res.fail.injEq] at h
            subst h
            exact ⟨rfl, rfl, index, rfl⟩
          · have hr := ih now st.ch (index + 1) _ st' h
            exact ⟨hr.1, hr.2.1, hr.2.2⟩
    · simp at h

/-- C5: when `read_char_until_quotation_mark` signals a literal failure,
the line counter of the escaping state equals its value at the start of the
literal scan (the line of the opening quote, however many characters were
pulled while searching), the failure emitted no token, and exactly one
unmatched-quote error naming the partially consumed text was reported at
that line; the `ParseError` itself is the `Res.fail` outcome. -/
theorem C5_unterminated_literal (st : PSt) (mark : PChar) (st' : PSt)
    (h : read_char_until_quotation_mark st mark = Res.fail st') :
    st'.lineno = st.lineno ∧ st'.tokens = st.tokens ∧
    ∃ n, st'.errors = st.errors ++ [⟨st.lineno, ErrKind.unmatchedQuote, st'.buffer.take n⟩] :=
  read_loop_fail mark st.lineno _ none none 1 st st' h

/-- C5 (witness): a char literal opened on line 5 whose closing quote is
never found; the escaping state reports line 5 with the partial text. -/
theorem C5_witness :
    W5out.lineno = W5.lineno ∧ W5out.tokens = W5.tokens ∧
    ∃ n, W5out.errors = W5.errors ++
      [⟨W5.lineno, ErrKind.unmatchedQuote, W5out.buffer.take n⟩] :=
  C5_unterminated_literal W5 (some '\'') W5out (by decide)

/-- Joining a buffer of real characters gives the underlying string. -/
theorem joinBuf_map_some (w : List Char) : joinBuf (w.map some) = String.mk w := by
  simp [joinBuf, List.filterMap_map]

/-- C7: keyword recognition matches the joined *entire* buffer against the
fixed table; on a hit it clears the whole buffer and emits exactly one KT
token, and the dispatch loop consults it before the identifier recognizer,
so scanning `int` yields the keyword token (index 7) and never touches the
identifier table. -/
theorem C7_keyword_full_buffer :
    (∀ (st : PSt) (i : Nat), pyIndex KT (joinBuf st.buffer) = some i →
      is_keywords st =
        (true, { st with buffer := [], tokens := st.tokens ++ [(Cat.KT, i)] })) ∧
    (∀ st : PSt, pyIndex KT (joinBuf st.buffer) = none → is_keywords st = (false, st)) ∧
    (∀ (f : Nat) (st : PSt) (b : PChar) (rest : List PChar) (i : Nat),
      st.buffer = b :: rest → (pyIsSpace b || b.isNone) = false →
      pyIndex KT (joinBuf st.buffer) = some i →
      match_buffer (f + 1) st = match_buffer f (is_keywords st).2) ∧
    okTokens (tokenizeStr "int") = some [(Cat.KT, 7)] ∧
    okIT (tokenizeStr "int") = some [] ∧ KT.get? 7 = some "int" := by
  refine ⟨?_, ?_, ?_, by decide, by decide, by decide⟩
  · intro st i h
    simp [is_keywords, h]
  · intro st h
    simp [is_keywords, h]
  · intro f st b rest i hb hsp h
    have hk : (is_keywords st).1 = true := by simp [is_keywords, h]
    rw [match_buffer, hb]
    dsimp only
    rw [hsp]
    simp only [Bool.false_eq_true, if_false]
    rw [hk]
    simp

/-- C7 (witness): the full-buffer hit and the precedence step on a buffer
holding exactly `int`. -/
theorem C7_witness :
    is_keywords W7 = (true, { W7 with buffer := [], tokens := [(Cat.KT, 7)] }) ∧
    match_buffer 2 W7 = match_buffer 1 (is_keywords W7).2 := by
  constructor
  · exact C7_keyword_full_buffer.1 W7 7 (by decide)
  · exact C7_keyword_full_buffer.2.2.1 1 W7 (some 'i') [some 'n', some 't'] 7 rfl
      (by decide) (by decide)

/-- Python `list.index` succeeds exactly on members. -/
theorem pyIndex_mem (l : List String) (s : String) (h : s ∈ l) :
    ∃ i, pyIndex l s = some i := by
  induction l with
  | nil => simp at h
  | cons a r ih =>
    by_cases ha : a = s
    · exact ⟨0, by simp [pyIndex, ha]⟩
    · rcases List.mem_cons.mp h with h1 | h1
      · exact absurd h1.symm ha
      · obtain ⟨i, hi⟩ := ih h1
        exact ⟨i + 1, by simp [pyIndex, ha, hi]⟩

/-- A triple hit joins to one of the three-character operator spellings. -/
theorem triple_join_mem (b0 b1 b2 : PChar) (h : is_triple_size_char b0 b1 b2 = true) :
    joinBuf [b0, b1, b2] ∈ triple_size_char := by
  simp only [is_triple_size_char, List.any_eq_true] at h
  obtain ⟨s, hs, hf⟩ := h
  fin_cases hs <;>
  · simp at hf
    obtain ⟨⟨rfl, rfl⟩, rfl⟩ := hf
    decide

/-- A double hit joins to one of the two-character operator spellings. -/
theorem double_join_mem (b0 b1 : PChar) (h : is_double_size_char b0 b1 = true) :
    joinBuf [b0, b1] ∈ double_size_char := by
  simp only [is_double_size_char, List.any_eq_true] at h
  obtain ⟨s, hs, hf⟩ := h
  fin_cases hs <;>
  · simp at hf
    obtain ⟨rfl, rfl⟩ := hf
    decide

/-- C8: punctuation recognition prefers a 3-character hit, then a
2-character hit, then a single character, truncating by the matched width;
`<<=` scans as the single triple token and `<<` as the single double token. -/
theorem C8_partition_longest_match :
    (∀ (st : PSt) (b0 b1 b2 : PChar) (rest : List PChar),
      st.buffer = b0 :: b1 :: b2 :: rest → is_triple_size_char b0 b1 b2 = true →
      ∃ i, pyIndex PT (joinBuf [b0, b1, b2]) = some i ∧
        is_partition st =
          (true, { st with tokens := st.tokens ++ [(Cat.PT, i)], buffer := rest })) ∧
    (∀ (st : PSt) (b0 b1 : PChar) (rest : List PChar),
      st.buffer = b0 :: b1 :: rest →
      (3 ≤ st.buffer.length && is_triple_size_char b0 b1 (st.buffer.getD 2 none)) = false →
      is_double_size_char b0 b1 = true →
      ∃ i, pyIndex PT (joinBuf [b0, b1]) = some i ∧
        is_partition st =
          (true, { st with tokens := st.tokens ++ [(Cat.PT, i)], buffer := rest })) ∧
    okTokens (tokenizeStr "<<=") = some [(Cat.PT, 0)] ∧ PT.get? 0 = some "<<=" ∧
    okTokens (tokenizeStr "<<") = some [(Cat.PT, 14)] ∧ PT.get? 14 = some "<<" := by
  refine ⟨?_, ?_, by decide, by decide, by decide, by decide⟩
  · intro st b0 b1 b2 rest hb ht
    have hmem : joinBuf [b0, b1, b2] ∈ PT := by
      rw [PT]
      exact List.mem_append_left _ (List.mem_append_left _ (triple_join_mem b0 b1 b2 ht))
    obtain ⟨i, hi⟩ := pyIndex_mem PT _ hmem
    refine ⟨i, hi, ?_⟩
    have hd : decide (3 ≤ (b0 :: b1 :: b2 :: rest).length) = true :=
      decide_eq_true (by simp)
    simp only [is_partition, hb]
    rw [show (b0 :: b1 :: b2 :: rest).getD 0 none = b0 from rfl,
      show (b0 :: b1 :: b2 :: rest).getD 1 none = b1 from rfl,
      show (b0 :: b1 :: b2 :: rest).getD 2 none = b2 from rfl, hd, ht]
    simp only [Bool.and_self, if_true]
    rw [show List.take 3 (b0 :: b1 :: b2 :: rest) = [b0, b1, b2] from rfl, hi]
    rfl
  · intro st b0 b1 rest hb h3 hdbl
    have hmem : joinBuf [b0, b1] ∈ PT := by
      rw [PT]
      exact List.mem_append_left _ (List.mem_append_right _ (double_join_mem b0 b1 hdbl))
    obtain ⟨i, hi⟩ := pyIndex_mem PT _ hmem
    refine ⟨i, hi, ?_⟩
    have hd2 : decide (2 ≤ (b0 :: b1 :: rest).length) = true :=
      decide_eq_true (by simp)
    rw [hb] at h3
    simp only [is_partition, hb]
    rw [show (b0 :: b1 :: rest).getD 0 none = b0 from rfl,
      show (b0 :: b1 :: rest).getD 1 none = b1 from rfl]
    rw [h3, hd2, hdbl]
    simp only [Bool.false_eq_true, if_false, Bool.and_self, if_true]
    rw [show List.take 2 (b0 :: b1 :: rest) = [b0, b1] from rfl, hi]
    rfl

/-- C8 (witness): the triple preference on a buffer starting with `<<=` and
the double preference on a buffer holding `<<`. -/
theorem C8_witness :
    (∃ i, pyIndex PT (joinBuf [some '<', some '<', some '=']) = some i ∧
      is_partition W8a =
        (true, { W8a with tokens := [(Cat.PT, i)], buffer := [some ' '] })) ∧
    (∃ i, pyIndex PT (joinBuf [some '<', some '<']) = some i ∧
      is_partition W8b = (true, { W8b with tokens := [(Cat.PT, i)], buffer := [] })) := by
  constructor
  · exact C8_partition_longest_match.1 W8a (some '<') (some '<') (some '=')
      [some ' '] rfl (by decide)
  · exact C8_partition_longest_match.2.1 W8b (some '<') (some '<') [] rfl
      (by decide) (by decide)

/-- State 0 of the identifier automaton maps every letter or underscore to
state 1. -/
theorem id_step0 : ∀ c ∈ idStartChars, id_am.step 0 (some c) = some 1 := by decide

/-- State 1 of the identifier automaton self-loops on every identifier
character. -/
theorem id_step1 : ∀ c ∈ idAllChars, id_am.step 1 (some c) = some 1 := by decide

/-- Identifier-start characters: not symbol-phase, word-phase, not space. -/
theorem idStart_props : ∀ c ∈ idStartChars,
    isSymbolChar (some c) = false ∧ isWordChar (some c) = true ∧
    pyIsSpace (some c) = false := by decide

/-- Identifier characters are word-phase characters. -/
theorem idAll_word : ∀ c ∈ idAllChars, isWordChar (some c) = true := by decide

/-- The validate loop from state 1 consumes any identifier tail. -/
theorem id_validateGo :
    ∀ (cs : List Char) (idx : Nat), (∀ d ∈ cs, d ∈ idAllChars) →
      id_am.validateGo 1 idx (cs.map some) = (idx + cs.length, true, true) := by
  intro cs
  induction cs with
  | nil =>
    intro idx _
    simpa [AutoMachine.validateGo] using by decide
  | cons d rest ih =>
    intro idx h
    have hd := id_step1 d (h d (by simp))
    simp only [List.map_cons, AutoMachine.validateGo, hd]
    rw [ih (idx + 1) (fun x hx => h x (by simp [hx]))]
    rw [show idx + 1 + rest.length = idx + (rest.length + 1) from by omega]
    simp

/-- The identifier automaton consumes and accepts every identifier text. -/
theorem id_validate (w : List Char) (h : isIdentText w) :
    id_am.validate (w.map some) = (w.length, true, true) := by
  cases w with
  | nil => exact absurd h (by simp [isIdentText])
  | cons c rest =>
    obtain ⟨hc, hrest⟩ := h
    have h0 := id_step0 c hc
    show id_am.validateGo 0 0 _ = _
    simp only [List.map_cons, AutoMachine.validateGo, h0]
    rw [id_validateGo rest 1 hrest]
    simp [Nat.add_comm]

/-- The word phase started on a word character consumes all remaining input
when it consists of word characters, appending everything to the buffer and
hitting end-of-input. -/
theorem phase1go_words :
    ∀ (l : List Char) (c : Char) (buf : List PChar),
      isWordChar (some c) = true → (∀ d ∈ l, isWordChar (some d) = true) →
      phase1go l (some c) buf = (some (l.getLastD c), buf ++ (c :: l).map some, [], true) := by
  intro l
  induction l with
  | nil =>
    intro c buf hc _
    rw [phase1go, hc]
    simp
  | cons d rest ih =>
    intro c buf hc h
    rw [phase1go, hc]
    simp only [if_true]
    rw [ih d (buf ++ [some c]) (h d (by simp)) (fun x hx => h x (by simp [hx]))]
    rw [List.getLastD_cons]
    simp

/-- The symbol phase started on the initial empty lookahead consumes the
placeholder and stops at the first non-symbol character. -/
theorem phase2go_first (c : Char) (rest : List Char) (h : isSymbolChar (some c) = false) :
    phase2go (c :: rest) none [] = (some c, [none], rest, false) := by
  rw [phase2go.eq_def]
  dsimp only
  rw [show isSymbolChar none = true from rfl]
  simp only [if_true]
  rw [phase2go.eq_def]
  dsimp only
  rw [h]
  simp

/-- The dispatch loop on an empty buffer returns at once. -/
theorem match_buffer_nil (f : Nat) (st : PSt) (h : st.buffer = []) :
    match_buffer (f + 1) st = Res.ok st := by
  rw [match_buffer, h]

/-- The dispatch loop drops a leading empty placeholder without touching
the line counter. -/
theorem match_buffer_pop_none (f : Nat) (st : PSt) (rest : List PChar)
    (h : st.buffer = none :: rest) :
    match_buffer (f + 1) st = match_buffer f { st with buffer := rest } := by
  rw [match_buffer, h]
  simp [pyIsSpace]

/-- The dropped prefix of an insertion is always `tail` cells. -/
theorem insert_buffer (st : PSt) (tail : Nat) (cat : Cat) :
    (insert_token_into_symtable st tail cat).buffer = st.buffer.drop tail := by
  rw [insert_token_into_symtable]
  split
  · rfl
  · cases cat <;> rfl

/-- On a buffer holding exactly a non-keyword identifier text, one pass of
the dispatch loop recognizes it with the identifier automaton and inserts
it into the identifier table. -/
theorem match_buffer_ident (f : Nat) (st : PSt) (w : List Char)
    (hb : st.buffer = w.map some) (hw : isIdentText w)
    (hk : pyIndex KT (String.mk w) = none) :
    match_buffer (f + 2) st = Res.ok (insert_token_into_symtable st w.length Cat.iT) := by
  obtain ⟨c, cs, rfl⟩ : ∃ c cs, w = c :: cs := by
    cases w with
    | nil => exact absurd hw (by simp [isIdentText])
    | cons c cs => exact ⟨c, cs, rfl⟩
  obtain ⟨hc, hcs⟩ := hw
  have hjoin : joinBuf (some c :: cs.map some) = String.mk (c :: cs) := by
    rw [← List.map_cons]
    exact joinBuf_map_some _
  have hkw : (is_keywords st).1 = false := by
    simp [is_keywords, hb, hjoin, hk]
  have hid : is_id st = (true, insert_token_into_symtable st (c :: cs).length Cat.iT) := by
    rw [is_id, hb, id_validate (c :: cs) ⟨hc, hcs⟩]
    simp
  have hsp : (pyIsSpace (some c) || (some c).isNone) = false := by
    simp [(idStart_props c hc).2.2]
  rw [show f + 2 = (f + 1) + 1 from rfl, match_buffer, hb]
  simp only [List.map_cons]
  rw [hsp]
  simp only [Bool.false_eq_true, if_false]
  rw [hkw]
  simp only [Bool.false_eq_true, if_false]
  rw [show (is_id st).1 = true from by rw [hid]]
  simp only [if_true]
  rw [show (is_id st).2 = insert_token_into_symtable st (c :: cs).length Cat.iT
    from by rw [hid]]
  apply match_buffer_nil
  rw [insert_buffer, hb]
  simp

/-- Scanning a file that consists of exactly one identifier text (not a
keyword) emits exactly one identifier token, index 0 of a fresh table. -/
theorem tokenize_ident (c : Char) (cs : List Char)
    (hc : c ∈ idStartChars) (hcs : ∀ d ∈ cs, d ∈ idAllChars)
    (hk : pyIndex KT (String.mk (c :: cs)) = none) :
    tokenize (c :: cs) = Res.ok
      { input := [], ch := some (cs.getLastD c), buffer := [], lineno := 1,
        tokens := [(Cat.iT, 0)], iT := [String.mk (c :: cs)],
        cT := [], ST := [], CT := [], errors := [] } := by
  rw [tokenize]
  rw [show (c :: cs).length + 2 = (cs.length + 2) + 1 from rfl]
  rw [scan_file]
  dsimp only [initSt, runPhase]
  rw [show phase1go (c :: cs) none [] = (none, [], c :: cs, false) from by
    rw [phase1go]; rfl]
  dsimp only
  simp only [reduceIte, ne_eq, not_true_eq_false, if_false]
  rw [phase2go_first c cs (idStart_props c hc).1]
  dsimp only
  rw [show match_fuel
      { input := cs, ch := some c, buffer := [none], lineno := 1, tokens := [],
        iT := [], cT := [], ST := [], CT := [], errors := [] } =
    (cs.length + 1) + 1 from by simp [match_fuel]; omega]
  rw [match_buffer_pop_none (cs.length + 1) _ [] rfl]
  dsimp only
  rw [match_buffer_nil cs.length _ rfl]
  dsimp only
  try simp only [reduceIte]
  rw [show cs.length + 2 = (cs.length + 1) + 1 from rfl]
  rw [scan_file]
  dsimp only [runPhase]
  rw [phase1go_words cs c [] (idStart_props c hc).2.1 (fun d hd => idAll_word d (hcs d hd))]
  dsimp only
  try simp only [List.nil_append, reduceIte]
  rw [show match_fuel
      { input := [], ch := some (cs.getLastD c), buffer := List.map some (c :: cs),
        lineno := 1, tokens := [], iT := [], cT := [], ST := [], CT := [],
        errors := [] } = cs.length + 2 from by simp [match_fuel]]
  rw [match_buffer_ident cs.length _ (c :: cs) rfl ⟨hc, hcs⟩ hk]
  dsimp only
  rw [insert_token_into_symtable]
  rw [show List.take (c :: cs).length (List.map some (c :: cs)) = List.map some (c :: cs)
    from by rw [← List.length_map (c :: cs) some]; exact List.take_length _]
  rw [joinBuf_map_some]
  dsimp only [tableGet, tableSet, pyIndex]
  rw [show List.drop (c :: cs).length (List.map some (c :: cs)) = []
    from by rw [← List.length_map (c :: cs) some]; exact List.drop_length _]
  simp

/-- Python `list.index` returns an in-range index holding the looked-up
string. -/
theorem pyIndex_spec (l : List String) (s : String) :
    ∀ i, pyIndex l s = some i → i < l.length ∧ l.get? i = some s := by
  induction l with
  | nil => intro i h; simp [pyIndex] at h
  | cons a r ih =>
    intro i h
    rw [pyIndex] at h
    split at h
    · simp only [Option.some.injEq] at h
      subst h
      refine ⟨Nat.succ_pos _, ?_⟩
      simp only [List.get?_cons_zero, Option.some.injEq]
      assumption
    · cases hp : pyIndex r s with
      | none => rw [hp] at h; simp at h
      | some j =>
        rw [hp] at h
        simp at h
        subst h
        obtain ⟨h1, h2⟩ := ih j hp
        exact ⟨Nat.succ_lt_succ h1, by simpa using h2⟩

/-- C6: every identifier-shaped input that is not a reserved word scans to
exactly one identifier token, and table insertion is dedup-by-equality —
an existing text yields its existing index and an unchanged table, a new
text is appended and yields the new last index — so identical identifier
text twice yields the same index both times. -/
theorem C6_identifier_and_dedup :
    (∀ w : List Char, isIdentText w → pyIndex KT (String.mk w) = none →
      okTokens (tokenize w) = some [(Cat.iT, 0)] ∧
      okIT (tokenize w) = some [String.mk w]) ∧
    (∀ (l : List String) (s : String) (i : Nat), pyIndex l s = some i →
      i < l.length ∧ l.get? i = some s) ∧
    (∀ (st : PSt) (tail : Nat) (cat : Cat),
      (cat = Cat.iT ∨ cat = Cat.cT ∨ cat = Cat.ST ∨ cat = Cat.CT) →
      (∀ i, pyIndex (tableGet st cat) (joinBuf (st.buffer.take tail)) = some i →
        insert_token_into_symtable st tail cat =
          { st with tokens := st.tokens ++ [(cat, i)], buffer := st.buffer.drop tail }) ∧
      (pyIndex (tableGet st cat) (joinBuf (st.buffer.take tail)) = none →
        (insert_token_into_symtable st tail cat).tokens =
          st.tokens ++ [(cat, (tableGet st cat).length)] ∧
        tableGet (insert_token_into_symtable st tail cat) cat =
          tableGet st cat ++ [joinBuf (st.buffer.take tail)] ∧
        (insert_token_into_symtable st tail cat).buffer = st.buffer.drop tail)) ∧
    okTokens (tokenizeStr "ab ab") = some [(Cat.iT, 0), (Cat.iT, 0)] ∧
    okIT (tokenizeStr "ab ab") = some ["ab"] := by
  refine ⟨?_, fun l s i h => pyIndex_spec l s i h, ?_, by decide, by decide⟩
  · intro w hw hk
    obtain ⟨c, cs, rfl⟩ : ∃ c cs, w = c :: cs := by
      cases w with
      | nil => exact absurd hw (by simp [isIdentText])
      | cons c cs => exact ⟨c, cs, rfl⟩
    rw [tokenize_ident c cs hw.1 hw.2 hk]
    constructor <;> rfl
  · intro st tail cat hcat
    constructor
    · intro i h
      rcases hcat with rfl | rfl | rfl | rfl <;>
      · simp only [tableGet] at h
        simp [insert_token_into_symtable, h, tableGet, tableSet]
    · intro h
      rcases hcat with rfl | rfl | rfl | rfl <;>
      · simp only [tableGet] at h
        simp [insert_token_into_symtable, h, tableGet, tableSet]

/-- C6 (witness): the identifier law at `ab`, the index law at `int` in the
keyword table, and both insertion branches at concrete states. -/
theorem C6_witness :
    okTokens (tokenize ['a', 'b']) = some [(Cat.iT, 0)] ∧
    okIT (tokenize ['a', 'b']) = some [String.mk ['a', 'b']] ∧
    (7 < KT.length ∧ KT.get? 7 = some "int") ∧
    insert_token_into_symtable W6 2 Cat.iT =
      { W6 with tokens := [(Cat.iT, 0)], buffer := [] } := by
  have h := C6_identifier_and_dedup
  refine ⟨(h.1 ['a', 'b'] ⟨by decide, by decide⟩ (by decide)).1,
    (h.1 ['a', 'b'] ⟨by decide, by decide⟩ (by decide)).2,
    h.2.1 KT "int" 7 (by decide), ?_⟩
  have h4 := (h.2.2.1 W6 2 Cat.iT (Or.inl rfl)).1 0 (by decide)
  simpa [W6] using h4

/-- Table extension is reflexive. -/
theorem growTables_refl (st : PSt) : growTables st st :=
  ⟨⟨[], by simp⟩, ⟨[], by simp⟩, ⟨[], by simp⟩, ⟨[], by simp⟩, ⟨[], by simp⟩⟩

/-- Table extension composes. -/
theorem growTables_trans {a b c : PSt} (h1 : growTables a b) (h2 : growTables b c) :
    growTables a c := by
  obtain ⟨⟨l1, e1⟩, ⟨l2, e2⟩, ⟨l3, e3⟩, ⟨l4, e4⟩, ⟨l5, e5⟩⟩ := h1
  obtain ⟨⟨m1, f1⟩, ⟨m2, f2⟩, ⟨m3, f3⟩, ⟨m4, f4⟩, ⟨m5, f5⟩⟩ := h2
  exact ⟨⟨l1 ++ m1, by rw [f1, e1, List.append_assoc]⟩,
    ⟨l2 ++ m2, by rw [f2, e2, List.append_assoc]⟩,
    ⟨l3 ++ m3, by rw [f3, e3, List.append_assoc]⟩,
    ⟨l4 ++ m4, by rw [f4, e4, List.append_assoc]⟩,
    ⟨l5 ++ m5, by rw [f5, e5, List.append_assoc]⟩⟩

/-- A token valid for a state stays valid after its tables extend. -/
theorem tokenOK_mono {st st' : PSt} (h : growTables st st') (t : Token) :
    tokenOK st t → tokenOK st' t := by
  obtain ⟨⟨l1, e1⟩, ⟨l2, e2⟩, ⟨l3, e3⟩, ⟨l4, e4⟩, _⟩ := h
  intro ht
  obtain ⟨c, i⟩ := t
  cases c <;> simp [tokenOK, tableGet, e1, e2, e3, e4] at ht ⊢ <;> omega

/-- Frame-correct steps are reflexive. -/
theorem stepOK_refl (st : PSt) : stepOK st st := ⟨growTables_refl st, id⟩

/-- Frame-correct steps compose. -/
theorem stepOK_trans {a b c : PSt} (h1 : stepOK a b) (h2 : stepOK b c) : stepOK a c :=
  ⟨growTables_trans h1.1 h2.1, fun v => h2.2 (h1.2 v)⟩

/-- The table a category names depends only on the four growable tables. -/
theorem tableGet_congr {st st' : PSt} (h2 : st'.iT = st.iT) (h3 : st'.cT = st.cT)
    (h4 : st'.ST = st.ST) (h5 : st'.CT = st.CT) (c : Cat) :
    tableGet st' c = tableGet st c := by
  cases c <;> simp [tableGet, h2, h3, h4, h5]

/-- An operation that leaves tokens and tables alone is frame-correct. -/
theorem stepOK_of_frames {st st' : PSt} (h : framesEq st st') : stepOK st st' := by
  obtain ⟨h1, h2, h3, h4, h5⟩ := h
  refine ⟨⟨⟨[], by simp [h2]⟩, ⟨[], by simp [h3]⟩, ⟨[], by simp [h4]⟩,
    ⟨[], by simp [h5]⟩, ⟨[], by simp [h1]⟩⟩, ?_⟩
  intro hv t ht
  rw [h1] at ht
  have hok := hv t ht
  rw [tokenOK, tableGet_congr h2 h3 h4 h5]
  exact hok

/-- `Res.gas` satisfies frame-correctness vacuously. -/
theorem resOK_gas (st : PSt) : resOK st Res.gas := by
  intro s' h
  rcases h with h | h <;> cases h

/-- A frame-correct normal outcome. -/
theorem resOK_ok {st s : PSt} (h : stepOK st s) : resOK st (Res.ok s) := by
  intro s' hd
  rcases hd with hd | hd
  · cases hd; exact h
  · cases hd

/-- A frame-correct escaping outcome. -/
theorem resOK_fail {st s : PSt} (h : stepOK st s) : resOK st (Res.fail s) := by
  intro s' hd
  rcases hd with hd | hd
  · cases hd
  · cases hd; exact h

/-- Prefix a frame-correct step to a frame-correct result. -/
theorem resOK_pre {st st1 : PSt} {r : Res PSt} (h1 : stepOK st st1) (h2 : resOK st1 r) :
    resOK st r :=
  fun s' hd => stepOK_trans h1 (h2 s' hd)

/-- Insertion into a growable table is frame-correct: the token stream gains
one token whose index is in range, and only the named table grows. -/
theorem stepOK_insert (st : PSt) (tail : Nat) (cat : Cat)
    (hcat : cat = Cat.iT ∨ cat = Cat.cT ∨ cat = Cat.ST ∨ cat = Cat.CT) :
    stepOK st (insert_token_into_symtable st tail cat) := by
  have key : ∀ st' : PSt,
      st'.tokens = st.tokens ++ [(cat, (tableGet st cat).length)] →
      tableGet st' cat = tableGet st cat ++ [joinBuf (st.buffer.take tail)] →
      growTables st st' → stepOK st st' := by
    intro st' htok htbl hgrow
    refine ⟨hgrow, ?_⟩
    intro hv t ht
    rw [htok] at ht
    simp only [List.mem_append, List.mem_singleton] at ht
    rcases ht with ht | rfl
    · exact tokenOK_mono hgrow t (hv t ht)
    · rw [tokenOK]
      dsimp only
      rw [htbl]
      simp
  have keep : ∀ (i : Nat),
      pyIndex (tableGet st cat) (joinBuf (st.buffer.take tail)) = some i →
      stepOK st { st with
        tokens := st.tokens ++ [(cat, i)]
        buffer := st.buffer.drop tail } := by
    intro i hp
    refine ⟨⟨⟨[], by simp⟩, ⟨[], by simp⟩, ⟨[], by simp⟩, ⟨[], by simp⟩,
      ⟨[(cat, i)], by simp⟩⟩, ?_⟩
    intro hv t ht
    simp only [List.mem_append, List.mem_singleton] at ht
    rcases ht with ht | rfl
    · have hok := hv t ht
      rw [tokenOK, tableGet_congr rfl rfl rfl rfl]
      exact hok
    · rw [tokenOK, tableGet_congr rfl rfl rfl rfl]
      exact (pyIndex_spec _ _ i hp).1
  cases hp : pyIndex (tableGet st cat) (joinBuf (st.buffer.take tail)) with
  | some i =>
    have hr : insert_token_into_symtable st tail cat =
        { st with
          tokens := st.tokens ++ [(cat, i)]
          buffer := st.buffer.drop tail } := by
      rcases hcat with rfl | rfl | rfl | rfl <;>
      · simp only [tableGet] at hp
        simp [insert_token_into_symtable, hp, tableGet]
    rw [hr]
    exact keep i hp
  | none =>
    rcases hcat with rfl | rfl | rfl | rfl <;>
    · simp only [tableGet] at hp
      simp only [insert_token_into_symtable, hp, tableGet, tableSet]
      apply key
      · simp [tableGet]
      · simp [tableGet]
      · refine ⟨?_, ?_, ?_, ?_, ?_⟩ <;>
          first
            | exact ⟨_, rfl⟩
            | exact ⟨[], by simp⟩

/-- Keyword recognition is frame-correct. -/
theorem stepOK_keywords (st : PSt) : stepOK st (is_keywords st).2 := by
  rw [is_keywords]
  cases hp : pyIndex KT (joinBuf st.buffer) with
  | none => exact stepOK_refl st
  | some i =>
    dsimp only
    refine ⟨⟨⟨[], by simp⟩, ⟨[], by simp⟩, ⟨[], by simp⟩, ⟨[], by simp⟩,
      ⟨[(Cat.KT, i)], by simp⟩⟩, ?_⟩
    intro hv t ht
    simp only [List.mem_append, List.mem_singleton] at ht
    rcases ht with ht | rfl
    · have hok := hv t ht
      rw [tokenOK, tableGet_congr rfl rfl rfl rfl]
      exact hok
    · rw [tokenOK, tableGet_congr rfl rfl rfl rfl]
      exact (pyIndex_spec KT _ i hp).1

/-- Identifier recognition is frame-correct. -/
theorem stepOK_id (st : PSt) : stepOK st (is_id st).2 := by
  rw [is_id]
  split
  · exact stepOK_insert st _ Cat.iT (Or.inl rfl)
  · exact stepOK_refl st

/-- Number recognition is frame-correct. -/
theorem stepOK_number (st : PSt) : stepOK st (is_number st).2 := by
  rw [is_number]
  split <;>
    first
      | exact stepOK_insert st _ Cat.CT (Or.inr (Or.inr (Or.inr rfl)))
      | exact stepOK_refl st
      | (split <;>
          first
            | exact stepOK_insert st _ Cat.CT (Or.inr (Or.inr (Or.inr rfl)))
            | exact stepOK_refl st)

/-- Punctuation recognition is frame-correct. -/
theorem stepOK_partition (st : PSt) : stepOK st (is_partition st).2 := by
  rw [is_partition]
  cases hp : pyIndex PT (joinBuf (st.buffer.take
      (if 3 ≤ st.buffer.length &&
          is_triple_size_char (st.buffer.getD 0 none) (st.buffer.getD 1 none)
            (st.buffer.getD 2 none)
        then 3
        else if 2 ≤ st.buffer.length &&
            is_double_size_char (st.buffer.getD 0 none) (st.buffer.getD 1 none)
          then 2 else 1))) with
  | none => exact stepOK_refl st
  | some i =>
    refine ⟨⟨⟨[], by simp⟩, ⟨[], by simp⟩, ⟨[], by simp⟩, ⟨[], by simp⟩,
      ⟨[(Cat.PT, i)], by simp⟩⟩, ?_⟩
    intro hv t ht
    simp only [List.mem_append, List.mem_singleton] at ht
    rcases ht with ht | rfl
    · have hok := hv t ht
      rw [tokenOK, tableGet_congr rfl rfl rfl rfl]
      exact hok
    · rw [tokenOK, tableGet_congr rfl rfl rfl rfl]
      exact (pyIndex_spec PT _ i hp).1

/-- The literal-reading loop never touches the token stream or the tables,
on either outcome. -/
theorem read_loop_frames (mark : PChar) (startLine : Nat) :
    ∀ (fuel : Nat) (pre now : PChar) (index : Nat) (st : PSt),
      (∀ i st', read_loop mark startLine fuel pre now index st = Res.ok (i, st') →
        framesEq st st') ∧
      (∀ st', read_loop mark startLine fuel pre now index st = Res.fail st' →
        framesEq st st') := by
  intro fuel
  induction fuel with
  | zero =>
    intro pre now index st
    constructor <;> (intro x h; try intro h2) <;> simp [read_loop] at *
  | succ fuel ih =>
    intro pre now index st
    constructor
    · intro i st' h
      rw [read_loop] at h
      dsimp only at h
      split at h
      · split at h
        · split at h
          · cases h
          · exact (ih _ _ _ _).1 i st' h
        · split at h
          · split at h <;> cases h
          · split at h
            · cases h
            · have hr := (ih _ _ _ _).1 i st' h
              exact ⟨hr.1, hr.2.1, hr.2.2.1, hr.2.2.2.1, hr.2.2.2.2⟩
      · simp only [Res.ok.injEq, Prod.mk.injEq] at h
        rw [← h.2]
        exact ⟨rfl, rfl, rfl, rfl, rfl⟩
    · intro st' h
      rw [read_loop] at h
      dsimp only at h
      split at h
      · split at h
        · split at h
          · simp only [Res.fail.injEq] at h
            subst h
            exact ⟨rfl, rfl, rfl, rfl, rfl⟩
          · exact (ih _ _ _ _).2 st' h
        · split at h
          · split at h <;>
            · simp only [Res.fail.injEq] at h
              subst h
              exact ⟨rfl, rfl, rfl, rfl, rfl⟩
          · split at h
            · simp only [Res.fail.injEq] at h
              subst h
              exact ⟨rfl, rfl, rfl, rfl, rfl⟩
            · have hr := (ih _ _ _ _).2 st' h
              exact ⟨hr.1, hr.2.1, hr.2.2.1, hr.2.2.2.1, hr.2.2.2.2⟩
      · cases h

/-- Frames from `read_char_until_quotation_mark`, packaged per outcome. -/
theorem read_char_frames (st : PSt) (mark : PChar) :
    (∀ i st', read_char_until_quotation_mark st mark = Res.ok (i, st') → framesEq st st') ∧
    (∀ st', read_char_until_quotation_mark st mark = Res.fail st' → framesEq st st') :=
  read_loop_frames mark st.lineno _ none none 1 st

/-- Reporting a diagnostic is frame-preserving. -/
theorem frames_error (st : PSt) (tok : List PChar) (k : ErrKind) :
    framesEq st (is_an_error st tok k) := ⟨rfl, rfl, rfl, rfl, rfl⟩

/-- Frames compose. -/
theorem framesEq_trans {a b c : PSt} (h1 : framesEq a b) (h2 : framesEq b c) :
    framesEq a c := by
  obtain ⟨x1, x2, x3, x4, x5⟩ := h1
  obtain ⟨y1, y2, y3, y4, y5⟩ := h2
  exact ⟨y1.trans x1, y2.trans x2, y3.trans x3, y4.trans x4, y5.trans x5⟩

/-- Insertion followed by a further buffer truncation is frame-correct. -/
theorem stepOK_insert_drop (st : PSt) (tail qi : Nat) (cat : Cat)
    (hcat : cat = Cat.iT ∨ cat = Cat.cT ∨ cat = Cat.ST ∨ cat = Cat.CT) :
    stepOK st { insert_token_into_symtable st tail cat with
      buffer := (insert_token_into_symtable st tail cat).buffer.drop qi } :=
  stepOK_trans (stepOK_insert st tail cat hcat) (stepOK_of_frames ⟨rfl, rfl, rfl, rfl, rfl⟩)

/-- Char-literal recognition is frame-correct on a normal outcome. -/
theorem stepOK_char_ok (st : PSt) (b : Bool) (st' : PSt)
    (h : is_char st = Res.ok (b, st')) : stepOK st st' := by
  rw [is_char] at h
  split at h
  · simp only [Res.ok.injEq, Prod.mk.injEq] at h
    rw [← h.2]
    exact stepOK_refl st
  · split at h
    · cases h
    · cases h
    · rename_i qi st1 heq
      split at h
      · cases h
      · dsimp only at h
        split at h
        · split at h <;> split at h <;>
          · simp only [Res.ok.injEq, Prod.mk.injEq] at h
            rw [← h.2]
            refine stepOK_trans (stepOK_of_frames ?_)
              (stepOK_insert_drop _ _ _ Cat.cT (Or.inr (Or.inl rfl)))
            refine framesEq_trans ((read_char_frames st _).1 qi st1 heq)
              (framesEq_trans ?_ ⟨rfl, rfl, rfl, rfl, rfl⟩)
            first
              | exact frames_error st1 _ _
              | exact ⟨rfl, rfl, rfl, rfl, rfl⟩
        · simp only [Res.ok.injEq, Prod.mk.injEq] at h
          rw [← h.2]
          refine stepOK_trans (stepOK_of_frames ((read_char_frames st _).1 qi st1 heq)) ?_
          exact stepOK_insert_drop _ _ _ Cat.cT (Or.inr (Or.inl rfl))

/-- Char-literal recognition is frame-correct on an escaping outcome. -/
theorem stepOK_char_fail (st : PSt) (s : PSt) (h : is_char st = Res.fail s) :
    stepOK st s := by
  rw [is_char] at h
  split at h
  · cases h
  · split at h
    · cases h
    · rename_i s0 heq
      simp only [Res.fail.injEq] at h
      subst h
      exact stepOK_of_frames ((read_char_frames st _).2 s0 heq)
    · rename_i qi st1 heq
      split at h
      · simp only [Res.fail.injEq] at h
        subst h
        exact stepOK_of_frames
          (framesEq_trans ((read_char_frames st _).1 qi st1 heq) (frames_error st1 _ _))
      · dsimp only at h
        split at h
        · split at h <;> cases h
        · cases h

/-- String-literal recognition is frame-correct on a normal outcome. -/
theorem stepOK_string_ok (st : PSt) (b : Bool) (st' : PSt)
    (h : is_string st = Res.ok (b, st')) : stepOK st st' := by
  rw [is_string] at h
  split at h
  · simp only [Res.ok.injEq, Prod.mk.injEq] at h
    rw [← h.2]
    exact stepOK_refl st
  · split at h
    · cases h
    · cases h
    · rename_i qi st1 heq
      simp only [Res.ok.injEq, Prod.mk.injEq] at h
      rw [← h.2]
      exact stepOK_trans (stepOK_of_frames ((read_char_frames st _).1 qi st1 heq))
        (stepOK_insert st1 qi Cat.ST (Or.inr (Or.inr (Or.inl rfl))))

/-- String-literal recognition is frame-correct on an escaping outcome. -/
theorem stepOK_string_fail (st : PSt) (s : PSt) (h : is_string st = Res.fail s) :
    stepOK st s := by
  rw [is_string] at h
  split at h
  · cases h
  · split at h
    · cases h
    · rename_i s0 heq
      simp only [Res.fail.injEq] at h
      subst h
      exact stepOK_of_frames ((read_char_frames st _).2 s0 heq)
    · cases h

/-- Every iteration of the dispatch loop is frame-correct: tokens and
tables only extend, and all token indices stay in range. -/
theorem match_buffer_stepOK :
    ∀ (fuel : Nat) (st : PSt), resOK st (match_buffer fuel st) := by
  intro fuel
  induction fuel with
  | zero =>
    intro st
    rw [match_buffer]
    exact resOK_gas st
  | succ fuel ih =>
    intro st
    rw [match_buffer]
    dsimp only
    split
    · exact resOK_ok (stepOK_refl _)
    · split
      · exact resOK_pre (stepOK_of_frames ⟨rfl, rfl, rfl, rfl, rfl⟩) (ih _)
      · split
        · exact resOK_pre (stepOK_keywords st) (ih _)
        · split
          · exact resOK_pre (stepOK_id st) (ih _)
          · split
            · exact resOK_pre (stepOK_number st) (ih _)
            · split
              · exact resOK_gas st
              · rename_i s heq
                exact resOK_fail (stepOK_char_fail st s heq)
              · rename_i st1 heq
                exact resOK_pre (stepOK_char_ok st true st1 heq) (ih _)
              · split
                · exact resOK_gas st
                · rename_i s heq
                  exact resOK_fail (stepOK_string_fail st s heq)
                · rename_i st1 heq
                  exact resOK_pre (stepOK_string_ok st true st1 heq) (ih _)
                · split
                  · exact resOK_pre (stepOK_partition st) (ih _)
                  · exact resOK_pre (stepOK_of_frames ⟨rfl, rfl, rfl, rfl, rfl⟩) (ih _)

/-- The scan loop is frame-correct on every real outcome: starting from any
state whose tokens are valid, the final state (normal or escaping) has
valid tokens and extended tables. -/
theorem scan_file_stepOK :
    ∀ (fuel : Nat) (st : PSt), resOK st (scan_file fuel st) := by
  intro fuel
  induction fuel with
  | zero =>
    intro st
    rw [scan_file]
    exact resOK_gas st
  | succ fuel ih =>
    intro st
    rw [scan_file]
    dsimp only
    have hclear : stepOK st { st with buffer := ([] : List PChar) } :=
      stepOK_of_frames ⟨rfl, rfl, rfl, rfl, rfl⟩
    have hphase : ∀ (go : List Char → PChar → List PChar →
        PChar × List PChar × List Char × Bool) (s0 : PSt),
        stepOK s0 (runPhase go s0).1 :=
      fun go s0 => stepOK_of_frames ⟨rfl, rfl, rfl, rfl, rfl⟩
    split
    · -- phase-1 EOF path: final match then break
      split
      · exact resOK_gas st
      · rename_i s heq
        refine resOK_fail ?_
        refine stepOK_trans hclear (stepOK_trans (hphase phase1go _) ?_)
        have := match_buffer_stepOK
          (match_fuel (runPhase phase1go { st with buffer := [] }).1)
          (runPhase phase1go { st with buffer := [] }).1 s (Or.inr heq)
        exact this
      · rename_i s heq
        refine resOK_ok ?_
        exact stepOK_trans hclear (stepOK_trans (hphase phase1go _)
          (match_buffer_stepOK _ _ s (Or.inl heq)))
    · split
      · -- word run: match, then finally-match, then continue
        split
        · exact resOK_gas st
        · rename_i s heq
          split
          · exact resOK_gas st
          · rename_i s2 heq2
            refine resOK_fail ?_
            refine stepOK_trans hclear (stepOK_trans (hphase phase1go _) ?_)
            exact stepOK_trans (match_buffer_stepOK _ _ s (Or.inr heq))
              (match_buffer_stepOK _ _ s2 (Or.inr heq2))
          · rename_i s2 heq2
            refine resOK_fail ?_
            refine stepOK_trans hclear (stepOK_trans (hphase phase1go _) ?_)
            exact stepOK_trans (match_buffer_stepOK _ _ s (Or.inr heq))
              (match_buffer_stepOK _ _ s2 (Or.inl heq2))
        · rename_i s heq
          split
          · exact resOK_gas st
          · rename_i s2 heq2
            refine resOK_fail ?_
            refine stepOK_trans hclear (stepOK_trans (hphase phase1go _) ?_)
            exact stepOK_trans (match_buffer_stepOK _ _ s (Or.inl heq))
              (match_buffer_stepOK _ _ s2 (Or.inr heq2))
          · rename_i s2 heq2
            refine resOK_pre ?_ (ih s2)
            refine stepOK_trans hclear (stepOK_trans (hphase phase1go _) ?_)
            exact stepOK_trans (match_buffer_stepOK _ _ s (Or.inl heq))
              (match_buffer_stepOK _ _ s2 (Or.inl heq2))
      · -- symbol run
        split
        · exact resOK_gas st
        · rename_i s2 heq2
          refine resOK_fail ?_
          refine stepOK_trans hclear (stepOK_trans (hphase phase1go _) (stepOK_trans (hphase phase2go _) ?_))
          exact match_buffer_stepOK _ _ s2 (Or.inr heq2)
        · rename_i s2 heq2
          split
          · refine resOK_ok ?_
            refine stepOK_trans hclear (stepOK_trans (hphase phase1go _) (stepOK_trans (hphase phase2go _) ?_))
            exact match_buffer_stepOK _ _ s2 (Or.inl heq2)
          · refine resOK_pre ?_ (ih s2)
            refine stepOK_trans hclear (stepOK_trans (hphase phase1go _) (stepOK_trans (hphase phase2go _) ?_))
            exact match_buffer_stepOK _ _ s2 (Or.inl heq2)

/-- C10: every emitted token is a pair of a category and an index in range
for that category's table at emission, the growable tables and the token
stream evolve append-only, and `KT`/`PT` are fixed — so after any outcome
of the scan (normal completion or escaping `ParseError`), every previously
emitted token's index is still valid. -/
theorem C10_token_indices_valid (fuel : Nat) (st st' : PSt)
    (h : scan_file fuel st = Res.ok st' ∨ scan_file fuel st = Res.fail st')
    (hv : ValidToks st) :
    ValidToks st' ∧ growTables st st' := by
  have hs : stepOK st st' := by
    rcases h with h | h
    · exact scan_file_stepOK fuel st st' (Or.inl h)
    · exact scan_file_stepOK fuel st st' (Or.inr h)
  exact ⟨hs.2 hv, hs.1⟩

/-- C10 (witness): the invariant applied to the complete scan of the file
`ab` from the fresh initial state. -/
theorem C10_witness :
    ValidToks W10out ∧ growTables (initSt ['a', 'b']) W10out := by
  refine C10_token_indices_valid 4 (initSt ['a', 'b']) W10out (Or.inl ?_) ?_
  · decide
  · intro t ht
    simp [initSt] at ht
